import Mathlib

/-!
Shallow embedding of `flamegraph.py` (a statistical call-stack sampling
profiler) and proofs about its stack formatting, aggregation, filtering,
serialization and lifecycle logic.

A Python stack frame is modelled by the data the program reads from it:
`f.f_globals['__name__']` (when present), `f.f_locals['self']` (when present,
we keep both `self.__class__.__name__` and `type(self).__name__`, which Python
allows to differ), and `f.f_code.co_name`.  A frame chain (the `f_back` walk)
is a list of frames, innermost first.
-/

namespace Flamegraph

/-- Information about the `self` local of a frame: the name reached via
`self.__class__.__name__` and the name reached via `type(self).__name__`.
Python allows an object to override `__class__`, so the two may differ. -/
structure SelfInfo where
  dunderClassName : String
  typeName : String
  deriving Repr, DecidableEq

/-- The data a single Python stack frame exposes to the profiler. -/
structure FrameData where
  /-- `f.f_globals['__name__']`, when `'__name__' in f.f_globals`. -/
  moduleName : Option String
  /-- data about `f.f_locals['self']`, when `'self' in f.f_locals`. -/
  selfInfo : Option SelfInfo
  /-- `f.f_code.co_name`. -/
  coName : String
  deriving Repr, DecidableEq

/-- Per-frame label built inside `extract_stack` (flamegraph.py lines 22-32):
module name and `:` if `'__name__' in f.f_globals`, then
`f.f_locals['self'].__class__.__name__` and `.` if `'self' in f.f_locals`,
then `f.f_code.co_name`; the parts are joined by `''.join(parts)`. -/
def extractStackLabel (f : FrameData) : String :=
  String.join
    ((match f.moduleName with | some m => [m, ":"] | none => []) ++
     (match f.selfInfo with | some s => [s.dunderClassName, "."] | none => []) ++
     [f.coName])

/-- `extract_stack` (lines 19-35): walk the `f_back` chain collecting one
label per frame, then reverse so the result reads root-to-leaf.  The chain
is given innermost-first, as the walk visits it. -/
def extract_stack (chain : List FrameData) : List String :=
  (chain.map extractStackLabel).reverse

/-- `create_flamegraph_entry` (lines 38-43): `';'.join(extract_stack(frame))`. -/
def create_flamegraph_entry (chain : List FrameData) : String :=
  String.intercalate ";" (extract_stack chain)

/-- `Sampler._format_frame` (lines 140-152): like the label of
`extract_stack` but using `type(f.f_locals['self']).__name__`. -/
def format_frame (f : FrameData) : String :=
  String.join
    ((match f.moduleName with | some m => [m, ":"] | none => []) ++
     (match f.selfInfo with | some s => [s.typeName, "."] | none => []) ++
     [f.coName])

/-- The folded-stack key built by `Sampler._sample` (lines 130-137):
labels are appended innermost-first while walking `f_back`, then
`';'.join(reversed(stack))`. -/
def sample_key (chain : List FrameData) : String :=
  String.intercalate ";" (chain.map format_frame).reverse

/-!  The aggregator: `collections.defaultdict(int)` mutated only by
`stats[key] += 1`.  A Python dict preserves insertion order and has unique
keys, so we model it as an association list, new keys appended at the end. -/

/-- The stats dictionary: folded-stack key ↦ count, in insertion order. -/
abbrev Stats := List (String × Nat)

/-- `stats[key] += 1` on a `defaultdict(int)`: increment the unique entry
holding `key`, or append `(key, 1)` if absent. -/
def record : Stats → String → Stats
  | [], key => [(key, 1)]
  | kv :: rest, key =>
    if kv.1 = key then (kv.1, kv.2 + 1) :: rest else kv :: record rest key

/-- `stats[key]` lookup (0 when absent, as for `defaultdict(int)`). -/
def getCount : Stats → String → Nat
  | [], _ => 0
  | kv :: rest, key => if kv.1 = key then kv.2 else getCount rest key

/-- The keys of the stats dictionary, in insertion order. -/
def statsKeys (stats : Stats) : List String := stats.map (·.1)

/-- Record a whole sequence of observations, oldest first. -/
def recordAll (obs : List String) : Stats := obs.foldl record []

/-- `num_frames` (`ProfileThread.num_frames` lines 92-96 and
`Sampler.num_frames` lines 185-189): `len(stats)` when `unique`, else
`sum(stats.values())`. -/
def num_frames (stats : Stats) (unique : Bool) : Nat :=
  if unique then stats.length else (stats.map (·.2)).sum

/-!  Filtering in `ProfileThread.run` (lines 68-81): an entry is recorded iff
`self._filter is None or self._filter.search(entry)`.  The compiled regular
expression is external library state; we model it as the Boolean match
predicate `re.compile(filter).search` denotes. -/

/-- `self._filter is None or self._filter.search(entry)` (line 76). -/
def matchesFilter (filter : Option (String → Bool)) (entry : String) : Bool :=
  match filter with
  | none => true
  | some f => f entry

/-- One recording step of `ProfileThread.run` for one observed entry
(lines 75-77): record iff no filter is set or the filter matches. -/
def recordFiltered (filter : Option (String → Bool)) (stats : Stats)
    (entry : String) : Stats :=
  if matchesFilter filter entry then record stats entry else stats

/-- The stats after the polling loop has observed a sequence of entries. -/
def runAll (filter : Option (String → Bool)) (entries : List String) : Stats :=
  entries.foldl (recordFiltered filter) []

/-- The semantics of `re.search` for the concrete pattern `"^main;"`:
match anchored at the start, literal text `main;`. -/
def mainPrefixFilter (s : String) : Bool := "main;".data.isPrefixOf s.data

/-!  Serialization.  `ProfileThread._write_results` (lines 88-89) and
`Sampler.write_results` (lines 181-183) both do
`for key in sorted(stats.keys()): fd.write('%s %d\n' % (key, stats[key]))`.
Python's `sorted` is a stable sort; `List.insertionSort` is stable, so it
computes the same list. -/

/-- `sorted(stats.keys())`: the keys in ascending lexicographic order. -/
def sortedKeys (stats : Stats) : List String :=
  (statsKeys stats).insertionSort (· ≤ ·)

/-- One output line `'%s %d\n' % (key, count)`. -/
def entryLine (key : String) (count : Nat) : String :=
  key ++ " " ++ toString count ++ "\n"

/-- The full text written by `_write_results` / `write_results`. -/
def write_results_text (stats : Stats) : String :=
  String.join ((sortedKeys stats).map fun k => entryLine k (getCount stats k))

/-!  `Sampler.output_stats` (lines 157-167): header lines `elapsed` and
`granularity`, then entries sorted by count descending with Python's stable
`sorted(..., key=lambda kv: kv[1], reverse=True)`.  A stable
descending-by-count sort keeps equal counts in dictionary (insertion)
order; `insertionSort` with `b.2 ≤ a.2` is exactly that stable sort. -/

/-- `sorted(stats.items(), key=lambda kv: kv[1], reverse=True)`. -/
def orderedStacks (stats : Stats) : Stats :=
  stats.insertionSort (fun a b => b.2 ≤ a.2)

/-- `Sampler.output_stats`: `''` when never started, else
`'\n'.join(lines) + '\n'` with the two header lines and one
`'{} {}'.format(frame, count)` line per entry.  The floats `elapsed` and
`self.interval` are rendered externally; we take their rendered text. -/
def output_stats (started : Bool) (elapsedStr granStr : String)
    (stats : Stats) : String :=
  if !started then "" else
    String.intercalate "\n"
      (["elapsed " ++ elapsedStr, "granularity " ++ granStr] ++
        (orderedStacks stats).map fun kv => kv.1 ++ " " ++ toString kv.2) ++ "\n"

/-!  `ProfileThread` lifecycle: the write-once flag, the output sink and
`stop` (lines 46-105).  We track the lines written to `self._fd`, how many
times `self._fd.close()` ran, and the flags the code mutates.  The lock only
serializes the critical section; the guarded logic itself is sequential. -/

/-- The mutable state of a `ProfileThread` that `stop`/`_write_results`
touch, together with its output sink. -/
structure ThreadState where
  written : Bool
  keeprunning : Bool
  stopevent : Bool
  /-- text written to `self._fd` so far. -/
  fdText : String
  /-- number of `self._fd.close()` calls so far. -/
  fdCloseCount : Nat
  deriving Repr, DecidableEq

/-- A freshly constructed `ProfileThread`'s state (lines 47-66). -/
def initThreadState : ThreadState :=
  { written := false, keeprunning := true, stopevent := false
    fdText := "", fdCloseCount := 0 }

/-- `_write_results` (lines 83-90): under the lock, return at once if
already written; otherwise set the flag, write the sorted entries and close
the sink. -/
def write_results (stats : Stats) (s : ThreadState) : ThreadState :=
  if s.written then s
  else { s with written := true
                fdText := s.fdText ++ write_results_text stats
                fdCloseCount := s.fdCloseCount + 1 }

/-- `ProfileThread.stop` (lines 98-105): clear the run flag, set the stop
event, flush results once.  (The final `join()` only waits.) -/
def stop (stats : Stats) (s : ThreadState) : ThreadState :=
  write_results stats { s with keeprunning := false, stopevent := true }

/-!  `Sampler` lifecycle (lines 108-189).  `start` sets `self._started`,
then installs the `SIGVTALRM` handler — `signal.signal` raises `ValueError`
unless called on the main thread, which `start` translates into
`ValueError('Can only sample on the main thread')` and re-raises, so neither
`signal.setitimer` nor `atexit.register` runs.  `stop` disarms the timer
with `setitimer(ITIMER_VIRTUAL, 0)` (callable from any thread). -/

/-- The mutable state of a `Sampler`. -/
structure SamplerState where
  /-- `self._started` (a `time.time()` timestamp). -/
  started : Option Nat
  /-- whether the `SIGVTALRM` handler is installed. -/
  handlerInstalled : Bool
  /-- whether the virtual interval timer is armed. -/
  timerArmed : Bool
  /-- whether `atexit.register(self.stop)` ran. -/
  atexitRegistered : Bool
  /-- `self._stack_counts`. -/
  stack_counts : Stats
  deriving Repr, DecidableEq

/-- `Sampler.__init__` (lines 114-117). -/
def Sampler.init : SamplerState :=
  { started := none, handlerInstalled := false, timerArmed := false
    atexitRegistered := false, stack_counts := [] }

/-- `Sampler.start` (lines 119-128) run on a thread that may or may not be
the main thread: the error raised, if any, and the resulting state
(`self._started` is assigned before the failing `signal.signal` call). -/
def Sampler.start (onMainThread : Bool) (now : Nat) (s : SamplerState) :
    Option String × SamplerState :=
  let s1 := { s with started := some now }
  if onMainThread then
    (none, { s1 with handlerInstalled := true, timerArmed := true
                     atexitRegistered := true })
  else
    (some "Can only sample on the main thread", s1)

/-- `Sampler.stop` (lines 173-176): `setitimer(ITIMER_VIRTUAL, 0)`. -/
def Sampler.stop (s : SamplerState) : SamplerState :=
  { s with timerArmed := false }

/-- `Sampler._sample` (lines 130-137) on a timer delivery interrupting a
frame chain: record the folded-stack key.  It only runs while the handler
is installed and the timer armed. -/
def Sampler.sample (chain : List FrameData) (s : SamplerState) : SamplerState :=
  { s with stack_counts := record s.stack_counts (sample_key chain) }

/-!  The three textual parts a frame label is built from, named so the label
composition can be stated. -/

/-- The enclosing-module qualifier of a frame label. -/
def moduleQualifier (f : FrameData) : String :=
  match f.moduleName with | some m => m ++ ":" | none => ""

/-- The owner-type qualifier of a frame label as `extract_stack` builds it,
via `self.__class__.__name__`. -/
def selfQualifier (f : FrameData) : String :=
  match f.selfInfo with | some s => s.dunderClassName ++ "." | none => ""

/-- The owner-type qualifier of a frame label as `Sampler._format_frame`
builds it, via `type(self).__name__`. -/
def selfTypeQualifier (f : FrameData) : String :=
  match f.selfInfo with | some s => s.typeName ++ "." | none => ""

/-! ## Basic facts about strings and labels -/

lemma append_ne_empty_right (s t : String) (h : t ≠ "") : s ++ t ≠ "" := by
  intro he
  apply h
  rw [String.ext_iff] at he ⊢
  simp only [String.data_append] at he
  simpa using (List.append_eq_nil.mp he).2

lemma extractStackLabel_eq (f : FrameData) :
    extractStackLabel f = moduleQualifier f ++ selfQualifier f ++ f.coName := by
  rcases f with ⟨mn, si, cn⟩
  rcases mn with _ | m <;> rcases si with _ | s <;>
    simp [extractStackLabel, moduleQualifier, selfQualifier, String.join,
      String.append_assoc]

lemma format_frame_eq (f : FrameData) :
    format_frame f = moduleQualifier f ++ selfTypeQualifier f ++ f.coName := by
  rcases f with ⟨mn, si, cn⟩
  rcases mn with _ | m <;> rcases si with _ | s <;>
    simp [format_frame, moduleQualifier, selfTypeQualifier, String.join,
      String.append_assoc]

/-! ## C1: folded-stack key structure -/

/-- C1.  For every frame chain of length ≥ 1 (given innermost-to-outermost,
as the `f_back` walk visits it), `extract_stack` yields exactly one label
per captured frame, ordered from the root (outermost) frame to the leaf
(innermost) frame, and `create_flamegraph_entry` joins those labels with
the delimiter `;`. -/
theorem extract_stack_root_to_leaf (chain : List FrameData) (_h : chain ≠ []) :
    (extract_stack chain).length = chain.length ∧
    extract_stack chain = chain.reverse.map extractStackLabel ∧
    create_flamegraph_entry chain =
      String.intercalate ";" (chain.reverse.map extractStackLabel) := by
  refine ⟨by simp [extract_stack], ?_, ?_⟩ <;>
    simp [extract_stack, create_flamegraph_entry, List.map_reverse]

/-- Witness for C1: the leaf-to-root chain `[foo, bar, main]` yields the
key `"main;bar;foo"`. -/
theorem extract_stack_root_to_leaf_witness :
    (extract_stack [(⟨none, none, "foo"⟩ : FrameData), ⟨none, none, "bar"⟩,
        ⟨none, none, "main"⟩]).length = 3 ∧
    create_flamegraph_entry [(⟨none, none, "foo"⟩ : FrameData),
        ⟨none, none, "bar"⟩, ⟨none, none, "main"⟩] = "main;bar;foo" := by
  have h := extract_stack_root_to_leaf
    [⟨none, none, "foo"⟩, ⟨none, none, "bar"⟩, ⟨none, none, "main"⟩]
    (List.cons_ne_nil _ _)
  exact ⟨h.1, h.2.2.trans (by rfl)⟩

/-! ## C2: frame label composition -/

/-- C2.  Every frame label is the concatenation, in order, of the
enclosing-module qualifier (present, i.e. nonempty, exactly when the frame's
globals expose `__name__`), the owner-type qualifier (present exactly when
the frame has a `self` local), and the function name; when the function name
is nonempty — as `co_name` always is in CPython — the label is nonempty.
This holds for both per-frame formatters of the program. -/
theorem frame_label_composition (f : FrameData) (h : f.coName ≠ "") :
    extractStackLabel f = moduleQualifier f ++ selfQualifier f ++ f.coName ∧
    format_frame f = moduleQualifier f ++ selfTypeQualifier f ++ f.coName ∧
    (moduleQualifier f = "" ↔ f.moduleName = none) ∧
    (selfQualifier f = "" ↔ f.selfInfo = none) ∧
    (selfTypeQualifier f = "" ↔ f.selfInfo = none) ∧
    extractStackLabel f ≠ "" ∧ format_frame f ≠ "" := by
  refine ⟨extractStackLabel_eq f, format_frame_eq f, ?_, ?_, ?_, ?_, ?_⟩
  · rcases hm : f.moduleName with _ | m
    · simp [moduleQualifier, hm]
    · simp only [moduleQualifier, hm]
      exact ⟨fun he => absurd he (append_ne_empty_right m ":" (by decide)),
        fun he => by cases he⟩
  · rcases hs : f.selfInfo with _ | s
    · simp [selfQualifier, hs]
    · simp only [selfQualifier, hs]
      exact ⟨fun he => absurd he
        (append_ne_empty_right s.dunderClassName "." (by decide)),
        fun he => by cases he⟩
  · rcases hs : f.selfInfo with _ | s
    · simp [selfTypeQualifier, hs]
    · simp only [selfTypeQualifier, hs]
      exact ⟨fun he => absurd he
        (append_ne_empty_right s.typeName "." (by decide)),
        fun he => by cases he⟩
  · rw [extractStackLabel_eq]
    exact append_ne_empty_right _ _ h
  · rw [format_frame_eq]
    exact append_ne_empty_right _ _ h

/-- Witness for C2 at a frame with both qualifiers present. -/
theorem frame_label_composition_witness :
    ("run" : String) ≠ "" ∧
    extractStackLabel ⟨some "mod", some ⟨"Cls", "Cls"⟩, "run"⟩ =
      "mod:Cls.run" := by
  have h := frame_label_composition ⟨some "mod", some ⟨"Cls", "Cls"⟩, "run"⟩
    (by decide)
  exact ⟨by decide, h.1.trans (by rfl)⟩

/-! ## Aggregator lemmas -/

lemma getCount_record_self (s : Stats) (k : String) :
    getCount (record s k) k = getCount s k + 1 := by
  induction s with
  | nil => simp [record, getCount]
  | cons kv rest ih =>
    by_cases hk : kv.1 = k
    · simp [record, getCount, hk]
    · simp [record, getCount, hk, ih]

lemma getCount_record_ne (s : Stats) (k k' : String) (h : k' ≠ k) :
    getCount (record s k) k' = getCount s k' := by
  have h2 : ¬ k = k' := fun e => h e.symm
  induction s with
  | nil => simp [record, getCount, h2]
  | cons kv rest ih =>
    by_cases hk : kv.1 = k
    · simp [record, getCount, hk, h2]
    · simp only [record, if_neg hk]
      by_cases hk' : kv.1 = k'
      · simp [getCount, hk']
      · simp [getCount, hk', ih]

lemma statsKeys_record (s : Stats) (k : String) :
    statsKeys (record s k) =
      if k ∈ statsKeys s then statsKeys s else statsKeys s ++ [k] := by
  induction s with
  | nil => simp [record, statsKeys]
  | cons kv rest ih =>
    by_cases hk : kv.1 = k
    · simp [record, statsKeys, hk]
    · have hne : ¬ k = kv.1 := fun e => hk e.symm
      simp only [record, if_neg hk, statsKeys, List.map_cons, List.mem_cons,
        hne, false_or] at ih ⊢
      rw [ih]
      split_ifs <;> simp

lemma sumCounts_record (s : Stats) (k : String) :
    ((record s k).map (·.2)).sum = (s.map (·.2)).sum + 1 := by
  induction s with
  | nil => simp [record]
  | cons kv rest ih =>
    by_cases hk : kv.1 = k
    · simp [record, hk]
      omega
    · simp [record, hk, ih]
      omega

lemma getCount_foldl_record (obs : List String) (s : Stats) (k : String) :
    getCount (obs.foldl record s) k = getCount s k + obs.count k := by
  induction obs generalizing s with
  | nil => simp
  | cons o rest ih =>
    rw [List.foldl_cons, ih]
    by_cases h : o = k
    · subst h
      rw [getCount_record_self]
      simp [List.count_cons]
      omega
    · rw [getCount_record_ne s o k (fun e => h e.symm)]
      simp [List.count_cons, h]

lemma mem_statsKeys_foldl_record (obs : List String) (s : Stats) (k : String) :
    k ∈ statsKeys (obs.foldl record s) ↔ k ∈ statsKeys s ∨ k ∈ obs := by
  induction obs generalizing s with
  | nil => simp
  | cons o rest ih =>
    rw [List.foldl_cons, ih, statsKeys_record]
    by_cases hko : k = o
    · subst hko
      split_ifs with h
      · simp [h]
      · simp [List.mem_append]
    · split_ifs with h
      · simp [hko]
      · simp [List.mem_append, hko]

lemma statsKeys_nodup_record (s : Stats) (k : String)
    (h : (statsKeys s).Nodup) : (statsKeys (record s k)).Nodup := by
  rw [statsKeys_record]
  split_ifs with hm
  · exact h
  · simp [List.nodup_append, h, hm]

lemma statsKeys_nodup_foldl_record (obs : List String) (s : Stats)
    (h : (statsKeys s).Nodup) : (statsKeys (obs.foldl record s)).Nodup := by
  induction obs generalizing s with
  | nil => exact h
  | cons o rest ih => exact ih _ (statsKeys_nodup_record _ _ h)

lemma sumCounts_foldl_record (obs : List String) (s : Stats) :
    ((obs.foldl record s).map (·.2)).sum = (s.map (·.2)).sum + obs.length := by
  induction obs generalizing s with
  | nil => simp
  | cons o rest ih =>
    rw [List.foldl_cons, ih, sumCounts_record]
    simp only [List.length_cons]
    omega

/-! ## C3: aggregator counting -/

/-- C3.  After recording a sequence of observations, the count stored for a
key `K` is the number of times `K` occurs in the sequence;
`num_frames true` is the number of distinct keys ever recorded and
`num_frames false` is the total number of recorded observations. -/
theorem aggregator_counts (obs : List String) (K : String) :
    getCount (recordAll obs) K = obs.count K ∧
    num_frames (recordAll obs) true = obs.dedup.length ∧
    num_frames (recordAll obs) false = obs.length := by
  refine ⟨?_, ?_, ?_⟩
  · have h := getCount_foldl_record obs [] K
    simpa [recordAll, getCount] using h
  · have hnd : (statsKeys (recordAll obs)).Nodup :=
      statsKeys_nodup_foldl_record obs [] (by simp [statsKeys])
    have hmem : ∀ k, k ∈ statsKeys (recordAll obs) ↔ k ∈ obs := by
      intro k
      have h := mem_statsKeys_foldl_record obs [] k
      simpa [recordAll, statsKeys] using h
    have h1 : (statsKeys (recordAll obs)).toFinset = obs.toFinset := by
      ext k
      simp [List.mem_toFinset, hmem k]
    have h2 : (statsKeys (recordAll obs)).toFinset.card =
        (statsKeys (recordAll obs)).length := List.toFinset_card_of_nodup hnd
    have h3 : obs.toFinset.card = obs.dedup.length := List.card_toFinset obs
    have h4 : (statsKeys (recordAll obs)).length = (recordAll obs).length := by
      simp [statsKeys]
    have h5 : (statsKeys (recordAll obs)).toFinset.card = obs.toFinset.card := by
      rw [h1]
    simp only [num_frames, if_true]
    omega
  · have h := sumCounts_foldl_record obs []
    simpa [recordAll, num_frames] using h

/-! ## C4: stop is idempotent and the flush runs at most once -/

/-- C4.  Starting from a state whose results are not yet written and whose
sink is still open, a second `stop` leaves the state of the first `stop`
unchanged (so the output text is identical), the sink is closed exactly
once no matter how many times `stop` runs, and the second attempt is a
plain early return (no second close, hence nothing to raise). -/
theorem stop_idempotent_write_once (stats : Stats) (s : ThreadState)
    (hw : s.written = false) (hc : s.fdCloseCount = 0) :
    stop stats (stop stats s) = stop stats s ∧
    (stop stats s).fdCloseCount = 1 ∧
    (stop stats (stop stats s)).fdText = (stop stats s).fdText ∧
    (∀ n : Nat, (stop stats)^[n + 1] s = stop stats s) := by
  have h1 : stop stats s =
      { written := true, keeprunning := false, stopevent := true
        fdText := s.fdText ++ write_results_text stats
        fdCloseCount := s.fdCloseCount + 1 } := by
    simp [stop, write_results, hw]
  have hidem : stop stats (stop stats s) = stop stats s := by
    rw [h1]
    simp [stop, write_results]
  refine ⟨hidem, by rw [h1, hc], by rw [hidem], ?_⟩
  intro n
  induction n with
  | zero => simp
  | succ m ih =>
    rw [Function.iterate_succ_apply', ih, hidem]

/-- Witness for C4 at a freshly constructed thread state. -/
theorem stop_idempotent_write_once_witness :
    stop [("k", 2)] (stop [("k", 2)] initThreadState) =
      stop [("k", 2)] initThreadState ∧
    (stop [("k", 2)] initThreadState).fdCloseCount = 1 := by
  have h := stop_idempotent_write_once [("k", 2)] initThreadState rfl rfl
  exact ⟨h.1, h.2.1⟩

/-! ## C5: wrong-thread start of the signal sampler -/

/-- C5.  Starting the signal-driven sampler anywhere but the main thread
raises `ValueError('Can only sample on the main thread')` synchronously:
the handler is never installed, the timer is never armed, no observation is
ever recorded, and a subsequent `stop` leaves the state exactly as it is
(a harmless no-op). -/
theorem sampler_start_wrong_thread (now : Nat) :
    (Sampler.start false now Sampler.init).1 =
      some "Can only sample on the main thread" ∧
    ((Sampler.start false now Sampler.init).2).timerArmed = false ∧
    ((Sampler.start false now Sampler.init).2).handlerInstalled = false ∧
    ((Sampler.start false now Sampler.init).2).stack_counts = [] ∧
    Sampler.stop ((Sampler.start false now Sampler.init).2) =
      (Sampler.start false now Sampler.init).2 := by
  exact ⟨rfl, rfl, rfl, rfl, rfl⟩

/-! ## C6: filtering in the polling sampler -/

lemma mem_statsKeys_foldl_recordFiltered (filter : Option (String → Bool))
    (entries : List String) (s : Stats) (K : String) :
    K ∈ statsKeys (entries.foldl (recordFiltered filter) s) ↔
      K ∈ statsKeys s ∨ (K ∈ entries ∧ matchesFilter filter K = true) := by
  induction entries generalizing s with
  | nil => simp
  | cons e rest ih =>
    rw [List.foldl_cons, ih]
    unfold recordFiltered
    split_ifs with hm
    · rw [statsKeys_record]
      by_cases hKe : K = e
      · subst hKe
        split_ifs with hk <;> simp [List.mem_append, hk, hm]
      · split_ifs with hk <;> simp [List.mem_append, hKe]
    · by_cases hKe : K = e
      · subst hKe
        simp [hm]
      · simp [hKe]

/-- C6.  A produced entry is recorded into the aggregator exactly when no
filter is configured or the filter matches the full folded-stack key, and a
key appears in the aggregator exactly when it was observed and passed the
filter; concretely, with filter `"^main;"` only `"main;bar"` of the two
candidate keys `"main;bar"`, `"other;baz"` is recorded. -/
theorem filter_records_iff (filter : Option (String → Bool)) (stats : Stats)
    (entries : List String) (e K : String) :
    getCount (recordFiltered filter stats e) e =
      getCount stats e + (if matchesFilter filter e = true then 1 else 0) ∧
    (K ∈ statsKeys (runAll filter entries) ↔
      K ∈ entries ∧ matchesFilter filter K = true) ∧
    statsKeys (runAll (some mainPrefixFilter) ["main;bar", "other;baz"]) =
      ["main;bar"] := by
  refine ⟨?_, ?_, by rfl⟩
  · unfold recordFiltered
    split_ifs with hm
    · rw [getCount_record_self]
    · rfl
  · have h := mem_statsKeys_foldl_recordFiltered filter entries [] K
    simpa [runAll, statsKeys] using h

/-! ## C7: key-sorted serialization -/

/-- C7.  The key-sorted serialization emits exactly one line
`"<key> <count>\n"` per aggregator entry, with the keys in ascending
lexicographic order; `{"zeta": 1, "alpha": 5}` serializes as
`"alpha 5\nzeta 1\n"`. -/
theorem write_results_key_sorted (stats : Stats) :
    List.Sorted (· ≤ ·) (sortedKeys stats) ∧
    List.Perm (sortedKeys stats) (statsKeys stats) ∧
    (sortedKeys stats).length = stats.length ∧
    write_results_text stats =
      String.join ((sortedKeys stats).map fun k => entryLine k (getCount stats k)) ∧
    write_results_text [("zeta", 1), ("alpha", 5)] = "alpha 5\nzeta 1\n" := by
  refine ⟨List.sorted_insertionSort _ _, List.perm_insertionSort _ _,
    by simp [sortedKeys, statsKeys], rfl, ?_⟩
  have hza : ¬ ("zeta" : String) ≤ "alpha" := by
    simp only [String.le_iff_toList_le]
    decide
  have h1 : sortedKeys [("zeta", 1), ("alpha", 5)] = ["alpha", "zeta"] := by
    simp [sortedKeys, statsKeys, List.insertionSort, List.orderedInsert, hza]
  rw [write_results_text, h1]
  rfl

/-! ## C8: the count-sorted report of `output_stats` -/

lemma intercalate_go_append (x s : String) (l : List String) :
    ∀ y, String.intercalate.go (x ++ y) s l = x ++ String.intercalate.go y s l := by
  induction l with
  | nil => intro y; rfl
  | cons a as ih =>
    intro y
    show String.intercalate.go (x ++ y ++ s ++ a) s as =
      x ++ String.intercalate.go (y ++ s ++ a) s as
    simp only [String.append_assoc, ih]

lemma intercalate_cons_cons (s a b : String) (l : List String) :
    String.intercalate s (a :: b :: l) =
      a ++ s ++ String.intercalate s (b :: l) := by
  show String.intercalate.go (a ++ s ++ b) s l = a ++ s ++ String.intercalate.go b s l
  rw [intercalate_go_append (a ++ s) s l]

/-- Tied entries of `orderedInsert` with the descending-count relation stay
in list order: inserting `a` leaves the sublist of entries with count `c`
unchanged, except that `a` lands in front of it when `a` itself has
count `c`. -/
lemma filter_count_orderedInsert (c : Nat) (a : String × Nat) (l : Stats) :
    (List.orderedInsert (fun x y => y.2 ≤ x.2) a l).filter (fun b => b.2 == c) =
      if a.2 = c then a :: l.filter (fun b => b.2 == c)
      else l.filter (fun b => b.2 == c) := by
  induction l with
  | nil => by_cases h : a.2 = c <;> simp [List.orderedInsert, h]
  | cons b t ih =>
    simp only [List.orderedInsert]
    by_cases hr : b.2 ≤ a.2
    · rw [if_pos hr]
      by_cases h : a.2 = c <;> by_cases hb : b.2 = c <;>
        simp [List.filter_cons, h, hb]
    · rw [if_neg hr]
      by_cases h : a.2 = c
      · have hbc : ¬ b.2 = c := by omega
        simp [List.filter_cons, h, hbc, ih]
      · by_cases hbc : b.2 = c <;> simp [List.filter_cons, h, hbc, ih]

/-- The stable descending-count sort keeps entries of any one count value
in their original (insertion) order. -/
lemma filter_count_insertionSort (c : Nat) (l : Stats) :
    (l.insertionSort (fun x y => y.2 ≤ x.2)).filter (fun b => b.2 == c) =
      l.filter (fun b => b.2 == c) := by
  induction l with
  | nil => rfl
  | cons a t ih =>
    simp only [List.insertionSort]
    rw [filter_count_orderedInsert]
    split_ifs with h <;> simp [List.filter_cons, h, ih]

/-- C8 counterexample.  With two keys tied at count 1 and recorded in the
order `zeta`, `alpha`, the report lists `zeta 1` before `alpha 1`: ties are
not broken by key (which would put `alpha 1` first) but by dictionary
insertion order. -/
theorem output_stats_tie_counterexample :
    output_stats true "E" "G" [("zeta", 1), ("alpha", 1)] =
      "elapsed E\ngranularity G\nzeta 1\nalpha 1\n" ∧
    output_stats true "E" "G" [("zeta", 1), ("alpha", 1)] ≠
      "elapsed E\ngranularity G\nalpha 1\nzeta 1\n" := by
  have heq : output_stats true "E" "G" [("zeta", 1), ("alpha", 1)] =
      "elapsed E\ngranularity G\nzeta 1\nalpha 1\n" := by rfl
  refine ⟨heq, ?_⟩
  rw [heq]
  decide

/-- C8 amended.  For a started sampler the report is an `elapsed` line, a
`granularity` line, and one `"<key> <count>"` line per aggregator entry,
ordered by count descending; ties between equal counts keep the
aggregator's insertion order (Python's `sorted` is stable), not key order.
An unstarted sampler reports the empty string. -/
theorem output_stats_count_sorted (e g : String) (stats : Stats) (c : Nat) :
    List.Sorted (fun a b : String × Nat => b.2 ≤ a.2) (orderedStacks stats) ∧
    List.Perm (orderedStacks stats) stats ∧
    (orderedStacks stats).filter (fun kv => kv.2 == c) =
      stats.filter (fun kv => kv.2 == c) ∧
    output_stats true e g stats =
      "elapsed " ++ e ++ "\n" ++
        (String.intercalate "\n" (("granularity " ++ g) ::
          (orderedStacks stats).map fun kv => kv.1 ++ " " ++ toString kv.2) ++
          "\n") ∧
    output_stats false e g stats = "" := by
  haveI : IsTotal (String × Nat) (fun a b => b.2 ≤ a.2) :=
    ⟨fun a b => (Nat.le_total b.2 a.2).imp id id⟩
  haveI : IsTrans (String × Nat) (fun a b => b.2 ≤ a.2) :=
    ⟨fun _ _ _ hab hbc => le_trans hbc hab⟩
  refine ⟨List.sorted_insertionSort _ _, List.perm_insertionSort _ _,
    filter_count_insertionSort c stats, ?_, rfl⟩
  simp only [output_stats, Bool.not_true, Bool.false_eq_true, if_false,
    List.cons_append, List.singleton_append]
  rw [intercalate_cons_cons]
  simp [String.append_assoc]

/-! ## C9: the delimiter inside frame labels -/

/-- C9 counterexample.  Nothing in the code guards against or escapes `;`:
a frame whose function name (equally, module or class name — Python permits
`;` in a reassigned `__name__`, a `type()`-created class name, or a compiled
`co_name`) contains `;` yields a label containing the delimiter, and two
different chains then fold to the same key, so splitting on `;` cannot
recover the per-frame labels. -/
theorem label_semicolon_counterexample :
    ';' ∈ (extractStackLabel ⟨none, none, "a;b"⟩).data ∧
    ';' ∈ (format_frame ⟨none, none, "a;b"⟩).data ∧
    create_flamegraph_entry [⟨none, none, "a;b"⟩] =
      create_flamegraph_entry [⟨none, none, "b"⟩, ⟨none, none, "a"⟩] ∧
    extract_stack [(⟨none, none, "a;b"⟩ : FrameData)] ≠
      extract_stack [⟨none, none, "b"⟩, ⟨none, none, "a"⟩] := by
  exact ⟨by decide, by decide, by rfl, by decide⟩

/-- C9 amended.  The code performs no guarding or escaping: a frame label
contains `;` exactly as often as the underlying names do.  Whenever the
module name, the class names and the function name of a frame are free of
`;`, the frame's label is free of `;`; splitting a folded key on `;`
recovers the labels only under that assumption. -/
theorem label_semicolon_free (f : FrameData)
    (hm : ∀ m, f.moduleName = some m → ';' ∉ m.data)
    (hs : ∀ s, f.selfInfo = some s →
      ';' ∉ s.dunderClassName.data ∧ ';' ∉ s.typeName.data)
    (hc : ';' ∉ f.coName.data) :
    ';' ∉ (extractStackLabel f).data ∧ ';' ∉ (format_frame f).data := by
  rcases f with ⟨mn, si, cn⟩
  rcases mn with _ | m <;> rcases si with _ | s
  · simp_all [extractStackLabel, format_frame, String.join, String.data_append]
  · have h1 := hs s rfl
    simp_all [extractStackLabel, format_frame, String.join, String.data_append]
  · have h2 := hm m rfl
    simp_all [extractStackLabel, format_frame, String.join, String.data_append]
  · have h1 := hs s rfl
    have h2 := hm m rfl
    simp_all [extractStackLabel, format_frame, String.join, String.data_append]

/-- Witness for C9 (amended) at an ordinary fully-qualified frame. -/
theorem label_semicolon_free_witness :
    ';' ∉ (extractStackLabel ⟨some "mod", some ⟨"Cls", "Cls"⟩, "run"⟩).data := by
  have h := label_semicolon_free ⟨some "mod", some ⟨"Cls", "Cls"⟩, "run"⟩
    (by intro m hm; simp only [Option.some.injEq] at hm; subst hm; decide)
    (by intro s hs; simp only [Option.some.injEq] at hs; subst hs;
        exact ⟨by decide, by decide⟩)
    (by decide)
  exact h.1

/-! ## C10: agreement of the two per-frame formatters -/

lemma label_eq_of_class_agrees (f : FrameData)
    (h : ∀ s, f.selfInfo = some s → s.dunderClassName = s.typeName) :
    extractStackLabel f = format_frame f := by
  rcases f with ⟨mn, si, cn⟩
  rcases si with _ | s
  · rfl
  · have hs := h s rfl
    simp [extractStackLabel, format_frame, hs]

/-- C10 counterexample.  `extract_stack` reads
`self.__class__.__name__` while `Sampler._format_frame` reads
`type(self).__name__`; for a receiver that overrides `__class__` (so the
two names differ, here `A` versus `B`) the two formatters produce different
labels and different folded-stack keys for the same frame. -/
theorem formatters_differ_counterexample :
    extractStackLabel ⟨none, some ⟨"A", "B"⟩, "m"⟩ = "A.m" ∧
    format_frame ⟨none, some ⟨"A", "B"⟩, "m"⟩ = "B.m" ∧
    extractStackLabel ⟨none, some ⟨"A", "B"⟩, "m"⟩ ≠
      format_frame ⟨none, some ⟨"A", "B"⟩, "m"⟩ ∧
    create_flamegraph_entry [⟨none, some ⟨"A", "B"⟩, "m"⟩] ≠
      sample_key [⟨none, some ⟨"A", "B"⟩, "m"⟩] := by
  exact ⟨rfl, rfl, by decide, by decide⟩

/-- C10 amended.  For every frame whose receiver does not override
`__class__` (so `self.__class__.__name__` and `type(self).__name__` agree —
the normal case), the two per-frame formatters produce identical labels,
and for every chain of such frames the two samplers produce byte-identical
folded-stack keys. -/
theorem samplers_same_key (chain : List FrameData)
    (h : ∀ f ∈ chain, ∀ s, f.selfInfo = some s →
      s.dunderClassName = s.typeName) :
    (∀ f ∈ chain, extractStackLabel f = format_frame f) ∧
    create_flamegraph_entry chain = sample_key chain := by
  have hl : ∀ f ∈ chain, extractStackLabel f = format_frame f :=
    fun f hf => label_eq_of_class_agrees f (h f hf)
  refine ⟨hl, ?_⟩
  unfold create_flamegraph_entry sample_key extract_stack
  rw [List.map_congr_left hl]

/-- Witness for C10 (amended) at a one-frame chain with an ordinary
receiver. -/
theorem samplers_same_key_witness :
    create_flamegraph_entry [(⟨some "m", some ⟨"C", "C"⟩, "f"⟩ : FrameData)] =
      sample_key [(⟨some "m", some ⟨"C", "C"⟩, "f"⟩ : FrameData)] := by
  have h := samplers_same_key [⟨some "m", some ⟨"C", "C"⟩, "f"⟩]
    (by
      intro f hf s hs
      rw [List.mem_singleton] at hf
      subst hf
      simp only [Option.some.injEq] at hs
      subst hs
      rfl)
  exact h.2

end Flamegraph
